import Mathlib

set_option autoImplicit false

/-
Verification of the quest repository's S3 reconciliation core
(src/quest/publish.py, src/quest/fetch.py) via a shallow embedding.

Modelling conventions:
  * File contents are byte lists (`List Nat`).
  * The S3 bucket is an association list from keys to the content stored
    under that key.  A stored object's fingerprint (its e_tag for a
    single-part upload) is the MD5 hex digest of its content; since the
    code only ever compares fingerprints for equality against locally
    computed MD5 digests, the digest function is a parameter
    `digest : Content → String` of the model, standing for the MD5 hex
    digest (`hashlib.md5(...).hexdigest()` locally, `e_tag.strip('"')`
    on the store side).
  * The environment `Env` models the outside world the pass reads:
    `fetch url` is the body returned by `requests.get(url)` (`none`
    models a non-2xx response, where `raise_for_status` raises), and
    `inventoryOk` models whether enumerating `bucket.objects.all()`
    succeeds.  Individual delete and upload calls are modelled as
    succeeding, which is the regime the claims quantify over.
  * Each pass returns a `SyncOutcome`: the final store, the ordered
    trace of store operations (`SyncEvent`), the temporary files
    created by `download_file_to_temp` that still exist when the pass
    ends (the code never removes them), and the error that aborted the
    pass, if any.
-/

namespace Quest

abbrev Content := List Nat

abbrev Store := List (String × Content)

/-- Characters of the final path segment: scan the characters, resetting
the accumulator at every `/`.  Models `os.path.basename(urlparse(u).path)`
for the slash-delimited URLs the tool consumes (no query or fragment). -/
def lastSegmentAux (acc : List Char) : List Char → List Char
  | [] => acc
  | c :: cs => if c = '/' then lastSegmentAux [] cs else lastSegmentAux (acc ++ [c]) cs

/-- Logical name of a source URL: its final path segment, used as the S3
key (`os.path.basename(urlparse(file_url).path)` in publish.py). -/
def logicalName (url : String) : String := String.mk (lastSegmentAux [] url.toList)

/-- One store operation performed during a pass, in issue order. -/
inductive SyncEvent where
  | delete (key : String)
  | fetchOk (url : String)
  | upload (key : String)
  deriving DecidableEq, Repr

/-- The exception that aborted a pass. -/
inductive SyncError where
  | storeUnreachable
  | fetchError (url : String)
  deriving DecidableEq, Repr

/-- The outside world one pass runs against. -/
structure Env where
  fetch : String → Option Content
  inventoryOk : Bool

/-- Result of a pass (or of a suffix of the upload loop). -/
structure SyncOutcome where
  store : Store
  events : List SyncEvent
  temps : List Content
  error : Option SyncError
  deriving DecidableEq, Repr

/-- Keys currently present in the store. -/
def keysOf (s : Store) : List String := s.map Prod.fst

/-- Content stored under a key (`none` models the `ClientError` raised
when reading `bucket.Object(file_name).e_tag` for an absent key). -/
def getObj (name : String) : Store → Option Content
  | [] => none
  | kv :: rest => if kv.1 = name then some kv.2 else getObj name rest

/-- Store an object: create the key or overwrite the existing object at
the same key (`upload_file` semantics). -/
def putObj (name : String) (c : Content) : Store → Store
  | [] => [(name, c)]
  | kv :: rest => if kv.1 = name then (name, c) :: rest else kv :: putObj name c rest

/-- Model of `download_file_to_temp`: GET the URL; on a 2xx response the
body is written to a fresh uniquely named temporary file and returned,
on a non-2xx response `raise_for_status` raises (`none`).  The
temporary file is created with `delete=False` and the function does not
remove it. -/
def download_file_to_temp (env : Env) (url : String) : Option Content := env.fetch url

/-- Deletion pass of `sync_s3_with_source` (publish.py lines 115-118):
every store key absent from the source logical-name list is deleted.
Returns the remaining store and the delete events in issue order. -/
def deletePass (urlFileNames : List String) : Store → Store × List SyncEvent
  | [] => ([], [])
  | kv :: rest =>
    let r := deletePass urlFileNames rest
    if kv.1 ∈ urlFileNames then (kv :: r.1, r.2) else (r.1, SyncEvent.delete kv.1 :: r.2)

/-- One iteration of the upload loop of `sync_s3_with_source`
(publish.py lines 120-138): download the URL to a temporary file (a
failure here is raised out of the loop, aborting the pass); read the
stored object's e_tag; upload when the key is absent (`ClientError`
branch) or when the local MD5 digest differs from the e_tag; otherwise
skip.  The temporary file is never removed. -/
def processEntry (digest : Content → String) (env : Env) (url : String) (store : Store) :
    SyncOutcome :=
  match download_file_to_temp env url with
  | none => ⟨store, [], [], some (SyncError.fetchError url)⟩
  | some content =>
    let fileName := logicalName url
    match getObj fileName store with
    | some existing =>
      if digest content ≠ digest existing then
        ⟨putObj fileName content store,
         [SyncEvent.fetchOk url, SyncEvent.upload fileName], [content], none⟩
      else
        ⟨store, [SyncEvent.fetchOk url], [content], none⟩
    | none =>
      ⟨putObj fileName content store,
       [SyncEvent.fetchOk url, SyncEvent.upload fileName], [content], none⟩

/-- Upload loop of `sync_s3_with_source` over the source URL list: the
entries are processed in order; an error raised by an entry aborts the
loop, leaving the remaining entries unprocessed. -/
def uploadPass (digest : Content → String) (env : Env) :
    List String → Store → SyncOutcome
  | [], store => ⟨store, [], [], none⟩
  | url :: rest, store =>
    let p := processEntry digest env url store
    match p.error with
    | some e => ⟨p.store, p.events, p.temps, some e⟩
    | none =>
      let r := uploadPass digest env rest p.store
      ⟨r.store, p.events ++ r.events, p.temps ++ r.temps, r.error⟩

/-- Model of `sync_s3_with_source` (publish.py lines 76-145) after the
source listing has been parsed into `fileUrls`: enumerate the bucket
(aborting with `storeUnreachable` before any mutation when the
inventory listing raises), delete every orphaned key, then run the
upload loop over the source entries. -/
def sync_s3_with_source (digest : Content → String) (env : Env)
    (fileUrls : List String) (store : Store) : SyncOutcome :=
  if env.inventoryOk then
    let urlFileNames := fileUrls.map logicalName
    let d := deletePass urlFileNames store
    let u := uploadPass digest env fileUrls d.1
    ⟨u.store, d.2 ++ u.events, u.temps, u.error⟩
  else
    ⟨store, [], [], some SyncError.storeUnreachable⟩

/-- Recognizer for delete events. -/
def isDelete : SyncEvent → Bool
  | SyncEvent.delete _ => true
  | _ => false

/-- Recognizer for upload events. -/
def isUpload : SyncEvent → Bool
  | SyncEvent.upload _ => true
  | _ => false

/-- Number of delete operations in a trace. -/
def countDeletes (es : List SyncEvent) : Nat := (es.filter isDelete).length

/-- Number of upload operations in a trace. -/
def countUploads (es : List SyncEvent) : Nat := (es.filter isUpload).length

/-- Model of a `hashlib.md5` object's `update` method: the object's
state is the byte stream absorbed so far, and `update` appends the new
chunk (hashlib guarantees `m.update(a); m.update(b)` is equivalent to
`m.update(a + b)`). -/
def md5_update (state chunk : Content) : Content := state ++ chunk

/-- The successive chunks produced by `iter(lambda: f.read(4096), b"")`:
blocks of 4096 bytes, the final one possibly shorter. -/
def readChunks (content : Content) : List Content :=
  if h : content = [] then []
  else content.take 4096 :: readChunks (content.drop 4096)
termination_by content.length
decreasing_by
  simp only [List.length_drop]
  have hp : 0 < content.length := List.length_pos.mpr h
  omega

/-- Model of `md5_checksum` (publish.py lines 68-73): absorb the file in
4096-byte chunks, then finalize with the hex-digest function
(`hexdigest` stands for MD5 finalization, a library primitive). -/
def md5_checksum (hexdigest : Content → String) (content : Content) : String :=
  hexdigest ((readChunks content).foldl md5_update [])

/-- Modelled from the spec: the reference digest, computed over the
file's entire byte content absorbed in one piece. -/
def md5_whole (hexdigest : Content → String) (content : Content) : String :=
  hexdigest (md5_update [] content)

/-- How the S3 upload call terminates, as seen by `upload_to_s3`. -/
inductive UploadOutcome where
  | ok
  | fileNotFound
  | noCredentials
  | otherError (msg : String)
  deriving DecidableEq, Repr

/-- What `upload_to_s3` did: the log lines it emitted and the exception
it re-raised, if any. -/
structure UploadResult where
  logs : List String
  raised : Option String
  deriving DecidableEq, Repr

/-- Model of `upload_to_s3` (publish.py lines 148-173): a
`FileNotFoundError` or `NoCredentialsError` from `upload_file` is
caught and logged and the function returns normally; any other
exception is logged and re-raised. -/
def upload_to_s3 (outcome : UploadOutcome) (file_name bucket object_name : String) :
    UploadResult :=
  match outcome with
  | UploadOutcome.ok =>
    ⟨["Successfully uploaded " ++ file_name ++ " to s3://" ++ bucket ++ "/" ++ object_name],
     none⟩
  | UploadOutcome.fileNotFound =>
    ⟨["The file " ++ file_name ++ " was not found"], none⟩
  | UploadOutcome.noCredentials =>
    ⟨["Credentials not available"], none⟩
  | UploadOutcome.otherError msg =>
    ⟨["An error occurred during upload to S3: " ++ msg], some msg⟩

/-- Model of `fetch_api_data` (fetch.py lines 12-48): on a non-200
response return 1; on a 200 response persist the payload to a temporary
file, call `upload_to_s3`, and return 0 unless the upload re-raised
(in which case the exception propagates, `Except.error`). -/
def fetch_api_data (statusCode : Nat) (uploadOutcome : UploadOutcome)
    (file_path bucket_name s3_file_name : String) : Except String Int :=
  if statusCode = 200 then
    let r := upload_to_s3 uploadOutcome file_path bucket_name s3_file_name
    match r.raised with
    | some msg => Except.error msg
    | none => Except.ok 0
  else
    Except.ok 1

/-- Concrete digest function used to instantiate the model in witnesses
and counterexamples; it distinguishes the concrete contents they use,
exactly as MD5 distinguishes those contents. -/
def sampleDigest : Content → String := fun c => Nat.repr c.length

/-- Concrete environment: a source serving two files with distinct
logical names, with a reachable inventory. -/
def envA : Env :=
  ⟨fun u =>
    if u = "http://h/data/a.txt" then some [0]
    else if u = "http://h/data/b.txt" then some [0, 1]
    else none, true⟩

/-- Concrete environment: one reachable file; every other URL (such as
`http://h/data/bad.txt`) answers with a non-2xx status. -/
def envB : Env :=
  ⟨fun u => if u = "http://h/data/good.txt" then some [7] else none, true⟩

/-- Concrete environment: two source URLs sharing the logical name
`dup.txt` but serving different content. -/
def envDup : Env :=
  ⟨fun u =>
    if u = "http://h/x/dup.txt" then some [0]
    else if u = "http://h/y/dup.txt" then some [0, 0]
    else none, true⟩

/-- The transient holding locations the upload loop creates: one
temporary file per source entry, in order, up to and excluding the
first entry whose fetch fails (which aborts the loop before its
temporary file is created).  Since the code never removes a temporary
file, these are exactly the files existing when the pass ends. -/
def fetchedTemps (env : Env) : List String → List Content
  | [] => []
  | url :: rest =>
    match env.fetch url with
    | none => []
    | some c => c :: fetchedTemps env rest

theorem keysOf_nil : keysOf [] = [] := rfl

theorem keysOf_cons {kv : String × Content} {s : Store} :
    keysOf (kv :: s) = kv.1 :: keysOf s := rfl

theorem mem_keysOf_of_getObj {n : String} {s : Store} {c : Content}
    (h : getObj n s = some c) : n ∈ keysOf s := by
  induction s with
  | nil => simp [getObj] at h
  | cons kv rest ih =>
    rw [getObj] at h
    rw [keysOf_cons, List.mem_cons]
    by_cases hk : kv.1 = n
    · exact Or.inl hk.symm
    · exact Or.inr (ih (by simpa [if_neg hk] using h))

theorem getObj_of_mem_keysOf {n : String} {s : Store}
    (h : n ∈ keysOf s) : ∃ c, getObj n s = some c := by
  induction s with
  | nil => simp [keysOf] at h
  | cons kv rest ih =>
    by_cases hk : kv.1 = n
    · exact ⟨kv.2, by rw [getObj, if_pos hk]⟩
    · rw [keysOf_cons, List.mem_cons] at h
      rcases h with h | h
      · exact absurd h.symm hk
      · rcases ih h with ⟨c, hc⟩
        exact ⟨c, by rw [getObj, if_neg hk]; exact hc⟩

theorem getObj_putObj_self {n : String} {c : Content} {s : Store} :
    getObj n (putObj n c s) = some c := by
  induction s with
  | nil => simp [putObj, getObj]
  | cons kv rest ih =>
    by_cases hk : kv.1 = n
    · simp [putObj, getObj, hk]
    · simp [putObj, getObj, hk, ih]

theorem getObj_putObj_ne {m n : String} {c : Content} {s : Store}
    (h : m ≠ n) : getObj m (putObj n c s) = getObj m s := by
  have hnm : ¬ n = m := fun hh => h hh.symm
  induction s with
  | nil => simp [putObj, getObj, hnm]
  | cons kv rest ih =>
    by_cases hk : kv.1 = n
    · simp [putObj, getObj, hk, hnm]
    · simp [putObj, getObj, hk, ih]

theorem mem_keysOf_putObj {m n : String} {c : Content} {s : Store} :
    m ∈ keysOf (putObj n c s) ↔ m = n ∨ m ∈ keysOf s := by
  induction s with
  | nil => simp [putObj, keysOf]
  | cons kv rest ih =>
    by_cases hk : kv.1 = n
    · rw [putObj, if_pos hk]
      simp [keysOf_cons, List.mem_cons, hk]
    · rw [putObj, if_neg hk]
      simp only [keysOf_cons, List.mem_cons, ih]
      tauto

theorem deletePass_mem {k : String} {names : List String} {s : Store} :
    k ∈ keysOf (deletePass names s).1 ↔ k ∈ keysOf s ∧ k ∈ names := by
  induction s with
  | nil => simp [deletePass, keysOf]
  | cons kv rest ih =>
    by_cases hk : kv.1 ∈ names
    · simp only [deletePass, if_pos hk, keysOf, List.map_cons, List.mem_cons]
      rw [keysOf] at ih
      constructor
      · rintro (h | h)
        · exact ⟨Or.inl h, h ▸ hk⟩
        · exact ⟨Or.inr (ih.mp h).1, (ih.mp h).2⟩
      · rintro ⟨h | h, hn⟩
        · exact Or.inl h
        · exact Or.inr (ih.mpr ⟨h, hn⟩)
    · simp only [deletePass, if_neg hk, keysOf, List.map_cons, List.mem_cons]
      rw [keysOf] at ih
      constructor
      · intro h
        exact ⟨Or.inr (ih.mp h).1, (ih.mp h).2⟩
      · rintro ⟨h | h, hn⟩
        · exact absurd (h ▸ hn) hk
        · exact ih.mpr ⟨h, hn⟩

theorem deletePass_events_isDelete {names : List String} {s : Store} :
    ∀ e ∈ (deletePass names s).2, isDelete e = true := by
  induction s with
  | nil => simp [deletePass]
  | cons kv rest ih =>
    by_cases hk : kv.1 ∈ names
    · simpa [deletePass, hk] using ih
    · simp only [deletePass, if_neg hk]
      intro e he
      rcases List.mem_cons.mp he with h | h
      · subst h; rfl
      · exact ih e h

theorem deletePass_nil {s : Store} :
    deletePass [] s = ([], s.map fun kv => SyncEvent.delete kv.1) := by
  induction s with
  | nil => simp [deletePass]
  | cons kv rest ih => simp [deletePass, ih]

theorem deletePass_of_subset {names : List String} {s : Store}
    (h : ∀ k ∈ keysOf s, k ∈ names) : deletePass names s = (s, []) := by
  induction s with
  | nil => simp [deletePass]
  | cons kv rest ih =>
    have hk : kv.1 ∈ names := h kv.1 (by simp [keysOf])
    have hrest : ∀ k ∈ keysOf rest, k ∈ names := by
      intro k hkr
      exact h k (by simp [keysOf] at hkr ⊢; exact Or.inr hkr)
    simp [deletePass, hk, ih hrest]

theorem processEntry_fetch_none {digest : Content → String} {env : Env} {url : String}
    {s : Store} (h : env.fetch url = none) :
    processEntry digest env url s = ⟨s, [], [], some (SyncError.fetchError url)⟩ := by
  simp [processEntry, download_file_to_temp, h]

theorem processEntry_eq_new {digest : Content → String} {env : Env} {url : String}
    {s : Store} {c : Content} (hf : env.fetch url = some c)
    (hg : getObj (logicalName url) s = none) :
    processEntry digest env url s =
      ⟨putObj (logicalName url) c s,
       [SyncEvent.fetchOk url, SyncEvent.upload (logicalName url)], [c], none⟩ := by
  simp [processEntry, download_file_to_temp, hf, hg]

theorem processEntry_eq_changed {digest : Content → String} {env : Env} {url : String}
    {s : Store} {c existing : Content} (hf : env.fetch url = some c)
    (hg : getObj (logicalName url) s = some existing)
    (hd : digest c ≠ digest existing) :
    processEntry digest env url s =
      ⟨putObj (logicalName url) c s,
       [SyncEvent.fetchOk url, SyncEvent.upload (logicalName url)], [c], none⟩ := by
  simp [processEntry, download_file_to_temp, hf, hg, hd]

theorem processEntry_eq_skip {digest : Content → String} {env : Env} {url : String}
    {s : Store} {c existing : Content} (hf : env.fetch url = some c)
    (hg : getObj (logicalName url) s = some existing)
    (hd : digest c = digest existing) :
    processEntry digest env url s = ⟨s, [SyncEvent.fetchOk url], [c], none⟩ := by
  simp [processEntry, download_file_to_temp, hf, hg, hd]

/-- Exhaustive description of one upload-loop iteration: the fetch fails
and the iteration raises; or the entry is uploaded (new key, or digest
mismatch); or the entry is skipped because the digests agree. -/
theorem processEntry_cases (digest : Content → String) (env : Env) (url : String)
    (s : Store) :
    (env.fetch url = none ∧
      processEntry digest env url s = ⟨s, [], [], some (SyncError.fetchError url)⟩) ∨
    (∃ c, env.fetch url = some c ∧
      (processEntry digest env url s =
        ⟨putObj (logicalName url) c s,
         [SyncEvent.fetchOk url, SyncEvent.upload (logicalName url)], [c], none⟩ ∨
       (∃ existing, getObj (logicalName url) s = some existing ∧
         digest c = digest existing ∧
         processEntry digest env url s = ⟨s, [SyncEvent.fetchOk url], [c], none⟩))) := by
  cases hf : env.fetch url with
  | none => exact Or.inl ⟨rfl, processEntry_fetch_none hf⟩
  | some c =>
    refine Or.inr ⟨c, rfl, ?_⟩
    cases hg : getObj (logicalName url) s with
    | none => exact Or.inl (processEntry_eq_new hf hg)
    | some existing =>
      by_cases hd : digest c = digest existing
      · exact Or.inr ⟨existing, rfl, hd, processEntry_eq_skip hf hg hd⟩
      · exact Or.inl (processEntry_eq_changed hf hg hd)

theorem countDeletes_append {a b : List SyncEvent} :
    countDeletes (a ++ b) = countDeletes a + countDeletes b := by
  simp [countDeletes, List.filter_append]

theorem countUploads_append {a b : List SyncEvent} :
    countUploads (a ++ b) = countUploads a + countUploads b := by
  simp [countUploads, List.filter_append]

theorem countDeletes_eq_zero {es : List SyncEvent}
    (h : ∀ e ∈ es, isDelete e = false) : countDeletes es = 0 := by
  have hnil : es.filter isDelete = [] :=
    List.filter_eq_nil_iff.mpr (fun e he => by simp [h e he])
  simp [countDeletes, hnil]

theorem uploadPass_events_isDelete (digest : Content → String) (env : Env) :
    ∀ (urls : List String) (s : Store),
    ∀ e ∈ (uploadPass digest env urls s).events, isDelete e = false := by
  intro urls
  induction urls with
  | nil => intro s e he; simp [uploadPass] at he
  | cons url rest ih =>
    intro s e he
    rcases processEntry_cases digest env url s with ⟨hf, hp⟩ |
      ⟨c, hf, hp | ⟨existing, hg, hd, hp⟩⟩
    · rw [uploadPass, hp] at he
      simp at he
    · rw [uploadPass, hp] at he
      simp only [List.mem_append, List.mem_cons] at he
      rcases he with (h | h | h) | h
      · subst h; rfl
      · subst h; rfl
      · simp at h
      · exact ih _ e h
    · rw [uploadPass, hp] at he
      simp only [List.mem_append, List.mem_cons] at he
      rcases he with (h | h) | h
      · subst h; rfl
      · simp at h
      · exact ih _ e h

theorem uploadPass_keys_mono (digest : Content → String) (env : Env) :
    ∀ (urls : List String) (s : Store) (k : String),
    k ∈ keysOf s → k ∈ keysOf (uploadPass digest env urls s).store := by
  intro urls
  induction urls with
  | nil => intro s k hk; simpa [uploadPass] using hk
  | cons url rest ih =>
    intro s k hk
    rcases processEntry_cases digest env url s with ⟨hf, hp⟩ |
      ⟨c, hf, hp | ⟨existing, hg, hd, hp⟩⟩
    · rw [uploadPass, hp]
      simpa using hk
    · rw [uploadPass, hp]
      exact ih _ k (mem_keysOf_putObj.mpr (Or.inr hk))
    · rw [uploadPass, hp]
      exact ih _ k hk

theorem uploadPass_keys_sub (digest : Content → String) (env : Env) :
    ∀ (urls : List String) (s : Store) (k : String),
    k ∈ keysOf (uploadPass digest env urls s).store →
    k ∈ keysOf s ∨ k ∈ urls.map logicalName := by
  intro urls
  induction urls with
  | nil =>
    intro s k hk
    simp [uploadPass] at hk
    exact Or.inl hk
  | cons url rest ih =>
    intro s k hk
    rcases processEntry_cases digest env url s with ⟨hf, hp⟩ |
      ⟨c, hf, hp | ⟨existing, hg, hd, hp⟩⟩
    · rw [uploadPass, hp] at hk
      simp only at hk
      exact Or.inl hk
    · rw [uploadPass, hp] at hk
      rcases ih _ k hk with h | h
      · rcases mem_keysOf_putObj.mp h with h | h
        · exact Or.inr (by simp [h])
        · exact Or.inl h
      · exact Or.inr (by simp [h])
    · rw [uploadPass, hp] at hk
      rcases ih _ k hk with h | h
      · exact Or.inl h
      · exact Or.inr (by simp [h])

theorem uploadPass_complete (digest : Content → String) (env : Env) :
    ∀ (urls : List String) (s : Store),
    (uploadPass digest env urls s).error = none →
    ∀ url ∈ urls, logicalName url ∈ keysOf (uploadPass digest env urls s).store := by
  intro urls
  induction urls with
  | nil => intro s _ url hu; simp at hu
  | cons url0 rest ih =>
    intro s herr url hu
    rcases processEntry_cases digest env url0 s with ⟨hf, hp⟩ |
      ⟨c, hf, hp | ⟨existing, hg, hd, hp⟩⟩
    · simp only [uploadPass, hp] at herr
      simp at herr
    · simp only [uploadPass, hp] at herr ⊢
      rcases List.mem_cons.mp hu with h | h
      · subst h
        exact uploadPass_keys_mono digest env rest _ _ (mem_keysOf_putObj.mpr (Or.inl rfl))
      · exact ih _ herr url h
    · simp only [uploadPass, hp] at herr ⊢
      rcases List.mem_cons.mp hu with h | h
      · subst h
        exact uploadPass_keys_mono digest env rest _ _ (mem_keysOf_of_getObj hg)
      · exact ih _ herr url h

theorem uploadPass_getObj_preserve (digest : Content → String) (env : Env) :
    ∀ (urls : List String) (s : Store) (n : String),
    n ∉ urls.map logicalName →
    getObj n (uploadPass digest env urls s).store = getObj n s := by
  intro urls
  induction urls with
  | nil => intro s n _; simp [uploadPass]
  | cons url rest ih =>
    intro s n hn
    rw [List.map_cons, List.mem_cons] at hn
    push_neg at hn
    obtain ⟨hn1, hn2⟩ := hn
    rcases processEntry_cases digest env url s with ⟨hf, hp⟩ |
      ⟨c, hf, hp | ⟨existing, hg, hd, hp⟩⟩
    · simp only [uploadPass, hp]
    · simp only [uploadPass, hp]
      rw [ih _ n hn2]
      exact getObj_putObj_ne hn1
    · simp only [uploadPass, hp]
      exact ih _ n hn2

theorem uploadPass_digest_post (digest : Content → String) (env : Env) :
    ∀ (urls : List String) (s : Store),
    (urls.map logicalName).Nodup →
    (uploadPass digest env urls s).error = none →
    ∀ url ∈ urls, ∃ c cs, env.fetch url = some c ∧
      getObj (logicalName url) (uploadPass digest env urls s).store = some cs ∧
      digest cs = digest c := by
  intro urls
  induction urls with
  | nil => intro s _ _ url hu; simp at hu
  | cons url0 rest ih =>
    intro s hnd herr url hu
    rw [List.map_cons, List.nodup_cons] at hnd
    obtain ⟨hnotin, hnd2⟩ := hnd
    rcases processEntry_cases digest env url0 s with ⟨hf, hp⟩ |
      ⟨c, hf, hp | ⟨existing, hg, hd, hp⟩⟩
    · simp only [uploadPass, hp] at herr
      simp at herr
    · simp only [uploadPass, hp] at herr ⊢
      rcases List.mem_cons.mp hu with h | h
      · subst h
        refine ⟨c, c, hf, ?_, rfl⟩
        rw [uploadPass_getObj_preserve digest env rest _ _ hnotin]
        exact getObj_putObj_self
      · exact ih _ hnd2 herr url h
    · simp only [uploadPass, hp] at herr ⊢
      rcases List.mem_cons.mp hu with h | h
      · subst h
        refine ⟨c, existing, hf, ?_, hd.symm⟩
        rw [uploadPass_getObj_preserve digest env rest _ _ hnotin]
        exact hg
      · exact ih _ hnd2 herr url h

theorem uploadPass_skip_all (digest : Content → String) (env : Env) :
    ∀ (urls : List String) (s : Store),
    (∀ url ∈ urls, ∃ c cs, env.fetch url = some c ∧
      getObj (logicalName url) s = some cs ∧ digest cs = digest c) →
    (uploadPass digest env urls s).store = s ∧
    countUploads (uploadPass digest env urls s).events = 0 ∧
    (uploadPass digest env urls s).error = none := by
  intro urls
  induction urls with
  | nil => intro s _; simp [uploadPass, countUploads]
  | cons url0 rest ih =>
    intro s hall
    obtain ⟨c, cs, hf, hg, hdig⟩ := hall url0 (by simp)
    have hp := processEntry_eq_skip hf hg hdig.symm
    have hrest := ih s (fun url hu => hall url (by simp [hu]))
    simp only [uploadPass, hp]
    refine ⟨hrest.1, ?_, hrest.2.2⟩
    have h1 : countUploads [SyncEvent.fetchOk url0] = 0 := by
      simp [countUploads, isUpload]
    rw [countUploads_append] at *
    simp [countUploads_append, h1, hrest.2.1]

theorem uploadPass_temps_eq (digest : Content → String) (env : Env) :
    ∀ (urls : List String) (s : Store),
    (uploadPass digest env urls s).temps = fetchedTemps env urls := by
  intro urls
  induction urls with
  | nil => intro s; simp [uploadPass, fetchedTemps]
  | cons url0 rest ih =>
    intro s
    rcases processEntry_cases digest env url0 s with ⟨hf, hp⟩ |
      ⟨c, hf, hp | ⟨existing, hg, hd, hp⟩⟩
    · simp only [uploadPass, hp, fetchedTemps, hf]
    · simp only [uploadPass, hp, fetchedTemps, hf]
      simp [ih]
    · simp only [uploadPass, hp, fetchedTemps, hf]
      simp [ih]

theorem sync_eq_of_inventoryOk {digest : Content → String} {env : Env}
    {fileUrls : List String} {store : Store} (h : env.inventoryOk = true) :
    sync_s3_with_source digest env fileUrls store =
      ⟨(uploadPass digest env fileUrls (deletePass (fileUrls.map logicalName) store).1).store,
       (deletePass (fileUrls.map logicalName) store).2 ++
         (uploadPass digest env fileUrls (deletePass (fileUrls.map logicalName) store).1).events,
       (uploadPass digest env fileUrls (deletePass (fileUrls.map logicalName) store).1).temps,
       (uploadPass digest env fileUrls (deletePass (fileUrls.map logicalName) store).1).error⟩ := by
  simp [sync_s3_with_source, h]

theorem sync_eq_of_not_inventoryOk {digest : Content → String} {env : Env}
    {fileUrls : List String} {store : Store} (h : env.inventoryOk = false) :
    sync_s3_with_source digest env fileUrls store =
      ⟨store, [], [], some SyncError.storeUnreachable⟩ := by
  simp [sync_s3_with_source, h]

theorem inventoryOk_of_error_none {digest : Content → String} {env : Env}
    {fileUrls : List String} {store : Store}
    (h : (sync_s3_with_source digest env fileUrls store).error = none) :
    env.inventoryOk = true := by
  cases hinv : env.inventoryOk with
  | true => rfl
  | false =>
    rw [sync_eq_of_not_inventoryOk hinv] at h
    simp at h

theorem countUploads_eq_zero {es : List SyncEvent}
    (h : ∀ e ∈ es, isUpload e = false) : countUploads es = 0 := by
  have hnil : es.filter isUpload = [] :=
    List.filter_eq_nil_iff.mpr (fun e he => by simp [h e he])
  simp [countUploads, hnil]

theorem countDeletes_map_delete (s : Store) :
    countDeletes (s.map fun kv => SyncEvent.delete kv.1) = s.length := by
  induction s with
  | nil => rfl
  | cons kv rest ih =>
    simp only [List.map_cons, countDeletes, List.filter_cons] at ih ⊢
    simp only [isDelete, if_pos] at ih ⊢
    simp [ih]

theorem countUploads_map_delete (s : Store) :
    countUploads (s.map fun kv => SyncEvent.delete kv.1) = 0 := by
  refine countUploads_eq_zero ?_
  intro e he
  rcases List.mem_map.mp he with ⟨kv, _, hkv⟩
  rw [← hkv]
  rfl

theorem readChunks_foldl :
    ∀ (n : Nat) (content : Content), content.length ≤ n →
    ∀ acc, (readChunks content).foldl md5_update acc = acc ++ content := by
  intro n
  induction n with
  | zero =>
    intro content h acc
    have hc : content = [] := List.eq_nil_of_length_eq_zero (Nat.le_zero.mp h)
    subst hc
    simp [readChunks]
  | succ n ih =>
    intro content h acc
    by_cases hc : content = []
    · subst hc; simp [readChunks]
    · have hlen : (content.drop 4096).length ≤ n := by
        rw [List.length_drop]
        have hpos : 0 < content.length := List.length_pos.mpr hc
        omega
      rw [readChunks, dif_neg hc, List.foldl_cons, ih _ hlen]
      simp [md5_update, List.append_assoc, List.take_append_drop]

/-- C1: after a pass of `sync_s3_with_source` that completes without any
per-file failure (no abort error), the set of keys in the store equals
exactly the set of logical names of the source entries: every orphaned
key was deleted and every source name is present. -/
theorem sync_mirror_invariant (digest : Content → String) (env : Env)
    (fileUrls : List String) (store : Store)
    (herr : (sync_s3_with_source digest env fileUrls store).error = none)
    (k : String) :
    k ∈ keysOf (sync_s3_with_source digest env fileUrls store).store ↔
    k ∈ fileUrls.map logicalName := by
  have hinv := inventoryOk_of_error_none herr
  simp only [sync_eq_of_inventoryOk hinv] at herr ⊢
  constructor
  · intro hk
    rcases uploadPass_keys_sub digest env fileUrls _ k hk with h | h
    · exact (deletePass_mem.mp h).2
    · exact h
  · intro hk
    rcases List.mem_map.mp hk with ⟨url, hu, hku⟩
    rw [← hku]
    exact uploadPass_complete digest env fileUrls _ herr url hu

/-- C1 witness: a concrete pass over two source files against a store
holding one orphaned key. -/
theorem sync_mirror_invariant_witness :
    "a.txt" ∈ keysOf (sync_s3_with_source sampleDigest envA
      ["http://h/data/a.txt", "http://h/data/b.txt"] [("c.txt", [9])]).store ↔
    "a.txt" ∈ ["http://h/data/a.txt", "http://h/data/b.txt"].map logicalName :=
  sync_mirror_invariant sampleDigest envA
    ["http://h/data/a.txt", "http://h/data/b.txt"] [("c.txt", [9])]
    (by decide) "a.txt"

/-- C2: in every pass, the trace splits into a prefix of deletes followed
by fetch/upload events only — every delete of an orphaned key is issued
before any fetch or upload begins — and every key present after the pass
is a source logical name or was already present before the pass. -/
theorem sync_deletes_before_uploads (digest : Content → String) (env : Env)
    (fileUrls : List String) (store : Store) :
    ∃ ds us, (sync_s3_with_source digest env fileUrls store).events = ds ++ us ∧
      (∀ e ∈ ds, isDelete e = true) ∧ (∀ e ∈ us, isDelete e = false) ∧
      ∀ k ∈ keysOf (sync_s3_with_source digest env fileUrls store).store,
        k ∈ fileUrls.map logicalName ∨ k ∈ keysOf store := by
  cases hinv : env.inventoryOk with
  | false =>
    refine ⟨[], [], ?_, ?_, ?_, ?_⟩
    · simp [sync_eq_of_not_inventoryOk hinv]
    · intro e he; simp at he
    · intro e he; simp at he
    · intro k hk
      right
      simpa [sync_eq_of_not_inventoryOk hinv] using hk
  | true =>
    simp only [sync_eq_of_inventoryOk hinv]
    refine ⟨(deletePass (fileUrls.map logicalName) store).2,
      (uploadPass digest env fileUrls
        (deletePass (fileUrls.map logicalName) store).1).events,
      rfl, deletePass_events_isDelete,
      uploadPass_events_isDelete digest env fileUrls _, ?_⟩
    intro k hk
    rcases uploadPass_keys_sub digest env fileUrls _ k hk with h | h
    · exact Or.inl (deletePass_mem.mp h).2
    · exact Or.inl h

/-- C2 witness: the split at a concrete pass that deletes one orphan and
uploads one file. -/
theorem sync_deletes_before_uploads_witness :
    ∃ ds us, (sync_s3_with_source sampleDigest envB
      ["http://h/data/good.txt"] [("c.txt", [9])]).events = ds ++ us ∧
      (∀ e ∈ ds, isDelete e = true) ∧ (∀ e ∈ us, isDelete e = false) ∧
      ∀ k ∈ keysOf (sync_s3_with_source sampleDigest envB
        ["http://h/data/good.txt"] [("c.txt", [9])]).store,
        k ∈ ["http://h/data/good.txt"].map logicalName ∨
        k ∈ keysOf [("c.txt", [9])] :=
  sync_deletes_before_uploads sampleDigest envB
    ["http://h/data/good.txt"] [("c.txt", [9])]

/-- C7: a pass with an empty source listing issues exactly one delete
per existing store key, zero uploads, and leaves the store empty. -/
theorem sync_empty_source (digest : Content → String) (env : Env) (store : Store)
    (hinv : env.inventoryOk = true) :
    countDeletes (sync_s3_with_source digest env [] store).events = store.length ∧
    countUploads (sync_s3_with_source digest env [] store).events = 0 ∧
    (sync_s3_with_source digest env [] store).store = [] := by
  simp only [sync_eq_of_inventoryOk hinv, List.map_nil, deletePass_nil]
  simp only [uploadPass]
  refine ⟨?_, ?_, ?_⟩
  · simpa [countDeletes_append] using countDeletes_map_delete store
  · simpa [countUploads_append] using countUploads_map_delete store
  · trivial

/-- C7 witness: an empty source against a store with two objects. -/
theorem sync_empty_source_witness :
    countDeletes (sync_s3_with_source sampleDigest envA []
      [("c.txt", [9]), ("d.txt", [8])]).events = 2 ∧
    countUploads (sync_s3_with_source sampleDigest envA []
      [("c.txt", [9]), ("d.txt", [8])]).events = 0 ∧
    (sync_s3_with_source sampleDigest envA [] [("c.txt", [9]), ("d.txt", [8])]).store = [] :=
  sync_empty_source sampleDigest envA [("c.txt", [9]), ("d.txt", [8])] (by decide)

/-- C8: `md5_checksum`, which streams the file in fixed 4096-byte
chunks, computes the same digest as absorbing the entire content in one
piece, for every finalization function and every content. -/
theorem md5_checksum_eq_whole (hexdigest : Content → String) (content : Content) :
    md5_checksum hexdigest content = md5_whole hexdigest content := by
  rw [md5_checksum, md5_whole,
    readChunks_foldl content.length content (le_refl _) [], md5_update]

/-- C9: when enumerating the store inventory fails, the pass aborts with
`storeUnreachable` having performed no delete and no upload: the store
is returned unchanged and the trace is empty. -/
theorem sync_inventory_failure_no_mutation (digest : Content → String) (env : Env)
    (fileUrls : List String) (store : Store) (hinv : env.inventoryOk = false) :
    sync_s3_with_source digest env fileUrls store =
      ⟨store, [], [], some SyncError.storeUnreachable⟩ := by
  simp [sync_s3_with_source, hinv]

/-- C9 witness: a concrete pass with an unreachable inventory leaves the
store untouched. -/
theorem sync_inventory_failure_no_mutation_witness :
    sync_s3_with_source sampleDigest ⟨envA.fetch, false⟩
      ["http://h/data/a.txt"] [("c.txt", [9])] =
      ⟨[("c.txt", [9])], [], [], some SyncError.storeUnreachable⟩ :=
  sync_inventory_failure_no_mutation sampleDigest ⟨envA.fetch, false⟩
    ["http://h/data/a.txt"] [("c.txt", [9])] rfl

/-- C10: `upload_to_s3` catches `FileNotFoundError` and
`NoCredentialsError`, logs one message, and returns normally without
re-raising; consequently `fetch_api_data` returns 0 on a 200 response
even though the upload never happened. -/
theorem upload_swallow_fetch_success (statusCode : Nat)
    (file_path bucket_name s3_file_name : String) (outcome : UploadOutcome)
    (houtcome : outcome = UploadOutcome.fileNotFound ∨
      outcome = UploadOutcome.noCredentials)
    (hstatus : statusCode = 200) :
    (upload_to_s3 outcome file_path bucket_name s3_file_name).raised = none ∧
    (upload_to_s3 outcome file_path bucket_name s3_file_name).logs.length = 1 ∧
    fetch_api_data statusCode outcome file_path bucket_name s3_file_name =
      Except.ok 0 := by
  subst hstatus
  rcases houtcome with h | h <;> subst h <;> simp [upload_to_s3, fetch_api_data]

/-- C10 witness: a missing local file is swallowed and the fetch still
reports success. -/
theorem upload_swallow_fetch_success_witness :
    (upload_to_s3 UploadOutcome.fileNotFound "f" "b" "o").raised = none ∧
    (upload_to_s3 UploadOutcome.fileNotFound "f" "b" "o").logs.length = 1 ∧
    fetch_api_data 200 UploadOutcome.fileNotFound "f" "b" "o" = Except.ok 0 :=
  upload_swallow_fetch_success 200 "f" "b" "o" UploadOutcome.fileNotFound
    (Or.inl rfl) rfl

/-- C3 counterexample: with a source listing whose first entry's fetch
returns non-2xx and whose second entry is fetchable, the pass aborts
with the fetch error, performs no fetch or upload at all (empty trace),
and never evaluates the remaining entry, whose name stays absent from
the store: the pass does not record the failure and continue. -/
theorem sync_fetch_failure_cex :
    (sync_s3_with_source sampleDigest envB
      ["http://h/data/bad.txt", "http://h/data/good.txt"] []).error =
      some (SyncError.fetchError "http://h/data/bad.txt") ∧
    (sync_s3_with_source sampleDigest envB
      ["http://h/data/bad.txt", "http://h/data/good.txt"] []).events = [] ∧
    getObj "good.txt" (sync_s3_with_source sampleDigest envB
      ["http://h/data/bad.txt", "http://h/data/good.txt"] []).store = none := by
  decide

/-- C3 (amended): a fetch failure aborts the whole pass: the exception
propagates out of `sync_s3_with_source`, the failure is not recorded
per-entry, and no source entry is fetched or uploaded — only the
deletion pass's events appear in the trace. -/
theorem sync_fetch_failure_aborts (digest : Content → String) (env : Env)
    (url : String) (rest : List String) (store : Store)
    (hinv : env.inventoryOk = true) (hf : env.fetch url = none) :
    (sync_s3_with_source digest env (url :: rest) store).error =
      some (SyncError.fetchError url) ∧
    ∀ e ∈ (sync_s3_with_source digest env (url :: rest) store).events,
      isDelete e = true := by
  have hp := @processEntry_fetch_none digest env url
    (deletePass ((url :: rest).map logicalName) store).1 hf
  simp only [sync_eq_of_inventoryOk hinv]
  constructor
  · simp only [uploadPass, hp]
  · intro e he
    simp only [uploadPass, hp] at he
    simp only [List.append_nil] at he
    exact deletePass_events_isDelete e (by simpa using he)

/-- C3 (amended) witness: a concrete aborted pass whose only event is
the deletion of the orphaned key. -/
theorem sync_fetch_failure_aborts_witness :
    (sync_s3_with_source sampleDigest envB
      ["http://h/data/bad.txt"] [("c.txt", [9])]).error =
      some (SyncError.fetchError "http://h/data/bad.txt") ∧
    ∀ e ∈ (sync_s3_with_source sampleDigest envB
      ["http://h/data/bad.txt"] [("c.txt", [9])]).events, isDelete e = true :=
  sync_fetch_failure_aborts sampleDigest envB "http://h/data/bad.txt" []
    [("c.txt", [9])] rfl (by decide)

/-- C4 counterexample: after a successful pass over one source entry,
the temporary file holding its downloaded content still exists — the
pass removed no transient holding location. -/
theorem sync_temp_survives_cex :
    (sync_s3_with_source sampleDigest envB ["http://h/data/good.txt"] []).temps =
      [[7]] ∧
    (sync_s3_with_source sampleDigest envB ["http://h/data/good.txt"] []).temps ≠
      [] := by
  decide

/-- C4 (amended): the pass removes no temporary files: on every exit
path — clean completion, fetch-failure abort, or inventory failure —
the temporary files existing when the pass ends are exactly one per
source entry whose fetch succeeded before the pass ended (none when
the inventory was unreachable, since no fetch ran). -/
theorem sync_temps_survive (digest : Content → String) (env : Env)
    (fileUrls : List String) (store : Store) :
    (sync_s3_with_source digest env fileUrls store).temps =
      if env.inventoryOk = true then fetchedTemps env fileUrls else [] := by
  cases hinv : env.inventoryOk with
  | false => simp [sync_eq_of_not_inventoryOk hinv]
  | true =>
    simp only [sync_eq_of_inventoryOk hinv, if_pos]
    exact uploadPass_temps_eq digest env fileUrls _

/-- C4 (amended) witness: a pass that fetches one entry and then aborts
on a failing fetch leaves exactly the first entry's temporary file. -/
theorem sync_temps_survive_witness :
    (sync_s3_with_source sampleDigest envB
      ["http://h/data/good.txt", "http://h/data/bad.txt"] []).temps =
      if envB.inventoryOk = true then
        fetchedTemps envB ["http://h/data/good.txt", "http://h/data/bad.txt"]
      else [] :=
  sync_temps_survive sampleDigest envB
    ["http://h/data/good.txt", "http://h/data/bad.txt"] []

/-- C5: for a source entry evaluated in the upload loop: an absent key
is uploaded (exactly one upload, storing the fetched content); a
present key whose fingerprint differs from the locally computed digest
is uploaded exactly once; a present key with a matching fingerprint
triggers zero uploads and leaves the store unchanged. -/
theorem sync_change_detection (digest : Content → String) (env : Env)
    (url : String) (store : Store) (c : Content)
    (hf : env.fetch url = some c) :
    (getObj (logicalName url) store = none →
      countUploads (processEntry digest env url store).events = 1 ∧
      getObj (logicalName url) (processEntry digest env url store).store = some c) ∧
    (∀ existing, getObj (logicalName url) store = some existing →
      digest c ≠ digest existing →
      countUploads (processEntry digest env url store).events = 1 ∧
      getObj (logicalName url) (processEntry digest env url store).store = some c) ∧
    (∀ existing, getObj (logicalName url) store = some existing →
      digest c = digest existing →
      countUploads (processEntry digest env url store).events = 0 ∧
      (processEntry digest env url store).store = store) := by
  refine ⟨?_, ?_, ?_⟩
  · intro hg
    rw [processEntry_eq_new hf hg]
    exact ⟨by simp [countUploads, List.filter, isUpload], getObj_putObj_self⟩
  · intro existing hg hd
    rw [processEntry_eq_changed hf hg hd]
    exact ⟨by simp [countUploads, List.filter, isUpload], getObj_putObj_self⟩
  · intro existing hg hd
    rw [processEntry_eq_skip hf hg hd]
    exact ⟨by simp [countUploads, List.filter, isUpload], rfl⟩

/-- C5 witness: uploading a new file stores its content with exactly one
upload event. -/
theorem sync_change_detection_witness :
    countUploads (processEntry sampleDigest envB "http://h/data/good.txt" []).events = 1 ∧
    getObj (logicalName "http://h/data/good.txt")
      (processEntry sampleDigest envB "http://h/data/good.txt" []).store = some [7] :=
  (sync_change_detection sampleDigest envB "http://h/data/good.txt" [] [7]
    (by decide)).1 (by decide)

/-- C6 counterexample: with two source entries sharing the logical name
`dup.txt` but serving different content, the first pass completes
without error, yet the second pass over the unchanged source performs
two uploads rather than zero — the claim fails for listings with
duplicate logical names. -/
theorem sync_idempotent_cex :
    (sync_s3_with_source sampleDigest envDup
      ["http://h/x/dup.txt", "http://h/y/dup.txt"] []).error = none ∧
    countUploads (sync_s3_with_source sampleDigest envDup
      ["http://h/x/dup.txt", "http://h/y/dup.txt"]
      (sync_s3_with_source sampleDigest envDup
        ["http://h/x/dup.txt", "http://h/y/dup.txt"] []).store).events = 2 := by
  decide

/-- C6 (amended): when the source logical names are pairwise distinct,
running the pass twice in succession against the same unchanged source
with no external mutation of the store performs zero deletes and zero
uploads on the second run. -/
theorem sync_idempotent (digest : Content → String) (env : Env)
    (fileUrls : List String) (store : Store)
    (hnd : (fileUrls.map logicalName).Nodup)
    (herr : (sync_s3_with_source digest env fileUrls store).error = none) :
    countDeletes (sync_s3_with_source digest env fileUrls
      (sync_s3_with_source digest env fileUrls store).store).events = 0 ∧
    countUploads (sync_s3_with_source digest env fileUrls
      (sync_s3_with_source digest env fileUrls store).store).events = 0 := by
  have hinv := inventoryOk_of_error_none herr
  simp only [sync_eq_of_inventoryOk hinv] at herr ⊢
  set names := fileUrls.map logicalName with hnames
  set s1 := (uploadPass digest env fileUrls (deletePass names store).1).store with hs1
  have hsub : ∀ k ∈ keysOf s1, k ∈ names := by
    intro k hk
    rcases uploadPass_keys_sub digest env fileUrls _ k hk with h | h
    · exact (deletePass_mem.mp h).2
    · exact h
  have hdel : deletePass names s1 = (s1, []) := deletePass_of_subset hsub
  have hpost := uploadPass_digest_post digest env fileUrls _ hnd herr
  have hskip := uploadPass_skip_all digest env fileUrls s1 hpost
  rw [hdel]
  refine ⟨?_, ?_⟩
  · simpa using countDeletes_eq_zero (uploadPass_events_isDelete digest env fileUrls s1)
  · simpa using hskip.2.1

/-- C6 (amended) witness: a second run over two distinctly named source
files performs no deletes and no uploads. -/
theorem sync_idempotent_witness :
    countDeletes (sync_s3_with_source sampleDigest envA
      ["http://h/data/a.txt", "http://h/data/b.txt"]
      (sync_s3_with_source sampleDigest envA
        ["http://h/data/a.txt", "http://h/data/b.txt"] [("c.txt", [9])]).store).events = 0 ∧
    countUploads (sync_s3_with_source sampleDigest envA
      ["http://h/data/a.txt", "http://h/data/b.txt"]
      (sync_s3_with_source sampleDigest envA
        ["http://h/data/a.txt", "http://h/data/b.txt"] [("c.txt", [9])]).store).events = 0 :=
  sync_idempotent sampleDigest envA
    ["http://h/data/a.txt", "http://h/data/b.txt"] [("c.txt", [9])]
    (by decide) (by decide)

end Quest
